import Mathlib

/-!
Verification of `scripts/setup/validate-hooks.py`, a pre-execution guard for
tool invocations.  The script reads one JSON request from standard input,
dispatches on `tool_name`, substring-matches commands against a dangerous
denylist and file paths against a protected-path list (plus a `..` traversal
check), appends one log entry per validated request, and exits 0 (allowed),
2 (blocked) or 1 (internal error).

The embedding is shallow: JSON values are an inductive type, the validators
are total functions over it returning `Except` (a raised Python exception is
an `error`), and `main` is a pure function from the parsed standard input,
the home directory (read by `os.path.expanduser`) and the current timestamp
to an exit code, the list of appended log lines and the stderr lines.
-/

namespace ValidateHooks

/-- JSON values, as produced by `json.load`.  Numbers are modelled as
integers (no claim involves numeric payloads).  Objects keep their key/value
pairs in order; Python's parser keeps the last binding of a duplicated key,
which `lookupLast` below reflects. -/
inductive Json where
  | null
  | bool (b : Bool)
  | num (n : Int)
  | str (s : String)
  | arr (elems : List Json)
  | obj (fields : List (String × Json))

/-- Contiguous-infix test on lists: `needle` occurs as a prefix of some
suffix of `hay`. -/
def listIsInfix (needle : List Char) : List Char → Bool
  | [] => needle.isEmpty
  | c :: rest => needle.isPrefixOf (c :: rest) || listIsInfix needle rest

/-- Python substring containment `needle in hay` for strings:
contiguous-infix test on the character lists. -/
def substr (needle hay : String) : Bool :=
  listIsInfix needle.toList hay.toList

/-- `DANGEROUS_COMMANDS` from the source, in source order. -/
def DANGEROUS_COMMANDS : List String :=
  [ "rm -rf /",
    "dd if=",
    "mkfs",
    ":(){:|:&};:",
    "chmod -R 777 /",
    "chown -R",
    "kill -9 -1",
    "> /dev/sda",
    "wget | sh",
    "curl | bash" ]

/-- `PROTECTED_PATHS` from the source, in source order. -/
def PROTECTED_PATHS : List String :=
  [ ".env",
    ".env.local",
    ".env.production",
    "node_modules/",
    ".git/",
    "dist/",
    "coverage/",
    ".claude/settings.json",
    "package-lock.json",
    "pnpm-lock.yaml",
    "/etc/",
    "/usr/",
    "/bin/",
    "/sbin/",
    "~/.ssh/",
    "~/.aws/" ]

/-- Python's `needle in hay` where `needle` is a string and `hay` is an
arbitrary JSON-decoded value: substring test on strings, membership on
lists, key membership on dicts, `TypeError` otherwise. -/
def pyIn (needle : String) (hay : Json) : Except String Bool :=
  match hay with
  | .str s => .ok (substr needle s)
  | .arr elems =>
      .ok (elems.any (fun e => match e with | .str s => s = needle | _ => false))
  | .obj fields => .ok (fields.any (fun kv => kv.1 = needle))
  | _ => .error "TypeError: argument of type is not iterable"

/-- The message built by `validate_command` on a match. -/
def dangerousMsg (d : String) : String :=
  "危険なコマンドが検出されました: " ++ d

/-- The `for dangerous in DANGEROUS_COMMANDS` loop of `validate_command`:
first pattern contained in the command wins. -/
def validateCommandLoop (patterns : List String) (command : Json) :
    Except String (Bool × String) :=
  match patterns with
  | [] => .ok (true, "OK")
  | d :: rest => do
      let hit ← pyIn d command
      if hit then .ok (false, dangerousMsg d)
      else validateCommandLoop rest command

/-- `validate_command`: checks the command against `DANGEROUS_COMMANDS`. -/
def validate_command (command : Json) : Except String (Bool × String) :=
  validateCommandLoop DANGEROUS_COMMANDS command

/-- Drop trailing `/` characters, as `str.rstrip("/")` does inside
`os.path.expanduser`. -/
def rstripSlash (s : String) : String :=
  String.mk ((s.toList.reverse.dropWhile (fun c => c = '/')).reverse)

/-- `os.path.expanduser` with home directory `home`: expands a leading `~`
followed by `/` or end of string into the home directory (trailing slashes
of `home` stripped; an empty result becomes `/`).  A `~user` form for a
named user is modelled as returning the path unchanged (the behaviour for
an unknown user; no protected entry and no claim uses the `~user` form). -/
def expanduser (home path : String) : String :=
  match path.toList with
  | '~' :: rest =>
      match rest with
      | [] =>
          let res := (rstripSlash home).toList
          if res = [] then "/" else String.mk res
      | '/' :: _ =>
          let res := (rstripSlash home).toList ++ rest
          if res = [] then "/" else String.mk res
      | _ => path
  | _ => path

/-- The message built by `validate_file_path` on a protected-path match. -/
def protectedMsg (p : String) : String :=
  "保護されたパスへのアクセス: " ++ p

/-- The parent-directory-traversal message of `validate_file_path`. -/
def traversalMsg : String :=
  "親ディレクトリへの移動は許可されていません"

/-- `validate_file_path` restricted to string inputs: expand the candidate
path, block on the first protected entry contained in the raw path or whose
expansion is contained in the expanded path, then block on a literal `..`
anywhere in the raw path. -/
def validateFilePathStr (home fp : String) : Bool × String :=
  let expanded_path := expanduser home fp
  match PROTECTED_PATHS.find? (fun prot =>
      substr prot fp || substr (expanduser home prot) expanded_path) with
  | some prot => (false, protectedMsg prot)
  | none =>
      if substr ".." fp then (false, traversalMsg)
      else (true, "OK")

/-- `validate_file_path`: `os.path.expanduser` raises `TypeError` on a
non-string argument, so the validator only proceeds on strings. -/
def validate_file_path (home : String) (file_path : Json) :
    Except String (Bool × String) :=
  match file_path with
  | .str fp => .ok (validateFilePathStr home fp)
  | _ => .error "TypeError: expected str, bytes or os.PathLike object"

/-- One line of `.claude/logs/validation.log`, as serialized by
`log_validation`. -/
structure LogEntry where
  timestamp : String
  event_type : String
  data : Json
  result : Bool
  message : String

/-- The observable outcome of one invocation: the exit status, the log
lines appended by `log_validation`, and the lines printed to stderr. -/
structure MainResult where
  exitCode : Nat
  log : List LogEntry
  stderr : List String

/-- Python `dict` lookup on JSON-decoded objects: the last binding of a
key wins (as `json.load` builds the dict). -/
def lookupLast (fields : List (String × Json)) (key : String) : Option Json :=
  (fields.filter (fun kv => kv.1 = key)).getLast?.map (fun kv => kv.2)

/-- `data.get(key, default)`: a default-valued lookup on objects, and an
`AttributeError` on every other JSON value. -/
def pyGet (j : Json) (key : String) (default : Json) : Except String Json :=
  match j with
  | .obj fields => .ok ((lookupLast fields key).getD default)
  | _ => .error "AttributeError: object has no attribute get"

/-- Python `==` between a JSON-decoded value and a string literal: true
exactly for the equal string (a non-string value is never equal). -/
def jsonEqStr (j : Json) (s : String) : Bool :=
  match j with
  | .str t => t = s
  | _ => false

/-- The body of `main`'s `try` block after `json.load` succeeded: dispatch
on `tool_name` (`== "Bash"`, then membership in the file-mutating list),
validate, log, and choose the exit status.  Exceptions propagate as
`error`. -/
def runRequest (home ts : String) (data : Json) : Except String MainResult := do
  let tool_name ← pyGet data "tool_name" (.str "")
  let tool_input ← pyGet data "tool_input" (.obj [])
  if jsonEqStr tool_name "Bash" then
    let command ← pyGet tool_input "command" (.str "")
    let r ← validate_command command
    let entry : LogEntry := ⟨ts, "bash_command", command, r.1, r.2⟩
    if r.1 then .ok ⟨0, [entry], []⟩
    else .ok ⟨2, [entry], ["❌ " ++ r.2]⟩
  else if jsonEqStr tool_name "Write" || jsonEqStr tool_name "Edit" ||
      jsonEqStr tool_name "MultiEdit" then
    let file_path ← pyGet tool_input "file_path" (.str "")
    let r ← validate_file_path home file_path
    let entry : LogEntry := ⟨ts, "file_operation", file_path, r.1, r.2⟩
    if r.1 then .ok ⟨0, [entry], []⟩
    else .ok ⟨2, [entry], ["❌ " ++ r.2]⟩
  else .ok ⟨0, [], []⟩

/-- `main`: `stdin` is the result of `json.load` on standard input
(`error` carries the parse-failure message).  Any exception inside the
`try` block is caught, reported to stderr and turned into exit status 1. -/
def main (home ts : String) (stdin : Except String Json) : MainResult :=
  match stdin >>= runRequest home ts with
  | .ok r => r
  | .error e => ⟨1, [], ["❌ 検証エラー: " ++ e]⟩

/-- Appending the run's log lines to the pre-existing log file content
(`open(..., "a")`). -/
def appendLog (oldLog : List LogEntry) (r : MainResult) : List LogEntry :=
  oldLog ++ r.log

/-! ## Helper lemmas -/

/-- On a string command, the denylist loop returns the verdict of the first
pattern (in list order) contained in the command, or `(true, "OK")`. -/
lemma validateCommandLoop_str (L : List String) (c : String) :
    validateCommandLoop L (.str c) =
      .ok (match L.find? (fun d => substr d c) with
           | some d => (false, dangerousMsg d)
           | none => (true, "OK")) := by
  induction L with
  | nil => rfl
  | cons d rest ih =>
      by_cases h : substr d c
      · simp [validateCommandLoop, pyIn, List.find?_cons, h, bind, Except.bind]
      · simp only [Bool.not_eq_true] at h
        simp [validateCommandLoop, pyIn, List.find?_cons, h, ih, bind, Except.bind]

/-- `validate_command` on a string command, characterized by
`List.find?` over the denylist. -/
lemma validate_command_str (c : String) :
    validate_command (.str c) =
      .ok (match DANGEROUS_COMMANDS.find? (fun d => substr d c) with
           | some d => (false, dangerousMsg d)
           | none => (true, "OK")) :=
  validateCommandLoop_str DANGEROUS_COMMANDS c

/-- A protected-path message never coincides with the traversal message
(their first characters differ). -/
lemma protectedMsg_ne_traversalMsg (p : String) : protectedMsg p ≠ traversalMsg := by
  intro h
  have h2 : (protectedMsg p).toList.head? = traversalMsg.toList.head? := by rw [h]
  have hl : (protectedMsg p).toList.head? = some '保' := rfl
  have hr : traversalMsg.toList.head? = some '親' := rfl
  rw [hl, hr] at h2
  exact absurd (Option.some.inj h2) (by decide)

/-- `find?` only looks at the predicate's values on the list's members. -/
lemma find?_congr_on (l : List α) (p q : α → Bool) (h : ∀ x ∈ l, p x = q x) :
    l.find? p = l.find? q := by
  induction l with
  | nil => rfl
  | cons a rest ih =>
      have ha := h a (List.mem_cons_self a rest)
      rw [List.find?_cons, List.find?_cons, ha]
      cases q a with
      | true => rfl
      | false => exact ih (fun x hx => h x (List.mem_cons_of_mem a hx))

/-! ## Claims -/

/-- C1: for every command string `c`, the command validator returns not-ok
exactly when some entry of `DANGEROUS_COMMANDS` occurs as a substring of
`c`; the returned message names the first matching pattern in list order,
and a command containing no entry yields `(true, "OK")`. -/
theorem command_validator_denylist_spec (c : String) :
    validate_command (.str c) =
      .ok (match DANGEROUS_COMMANDS.find? (fun d => substr d c) with
           | some d => (false, dangerousMsg d)
           | none => (true, "OK"))
    ∧ (DANGEROUS_COMMANDS.find? (fun d => substr d c) = none ↔
        ∀ d ∈ DANGEROUS_COMMANDS, substr d c = false)
    ∧ ((∃ d ∈ DANGEROUS_COMMANDS, substr d c = true) ↔
        ∃ d ∈ DANGEROUS_COMMANDS, validate_command (.str c) = .ok (false, dangerousMsg d)) := by
  refine ⟨validate_command_str c, by simp [List.find?_eq_none], ?_⟩
  constructor
  · rintro ⟨d, hd, hsub⟩
    rcases hfind : DANGEROUS_COMMANDS.find? (fun e => substr e c) with _ | e
    · rw [List.find?_eq_none] at hfind
      exact absurd hsub (by simpa using hfind d hd)
    · exact ⟨e, List.mem_of_find?_eq_some hfind, by rw [validate_command_str c, hfind]⟩
  · rintro ⟨d, hd, hok⟩
    rw [validate_command_str c] at hok
    rcases hfind : DANGEROUS_COMMANDS.find? (fun e => substr e c) with _ | e
    · rw [hfind] at hok
      exact absurd (Except.ok.inj hok) (by simp)
    · exact ⟨e, List.mem_of_find?_eq_some hfind, by simpa using List.find?_some hfind⟩

/-- C2: for every home directory and file path `fp`, the path validator
returns not-ok naming a protected entry exactly when some entry of
`PROTECTED_PATHS` occurs in the raw path or its expansion occurs in the
expanded path; and it returns `(true, "OK")` exactly when no entry matches
and `".."` does not occur in the raw path. -/
theorem path_validator_protected_spec (home fp : String) :
    ((∃ p ∈ PROTECTED_PATHS, validateFilePathStr home fp = (false, protectedMsg p)) ↔
      ∃ p ∈ PROTECTED_PATHS,
        (substr p fp || substr (expanduser home p) (expanduser home fp)) = true)
    ∧ (validateFilePathStr home fp = (true, "OK") ↔
      ((∀ p ∈ PROTECTED_PATHS,
          (substr p fp || substr (expanduser home p) (expanduser home fp)) = false)
        ∧ substr ".." fp = false)) := by
  constructor
  · constructor
    · rintro ⟨p, hp, hval⟩
      rcases hfind : PROTECTED_PATHS.find? (fun q =>
          substr q fp || substr (expanduser home q) (expanduser home fp)) with _ | q
      · rw [validateFilePathStr, hfind] at hval
        by_cases hdots : substr ".." fp
        · rw [if_pos hdots] at hval
          exact absurd (Prod.mk.inj hval).2 (protectedMsg_ne_traversalMsg p).symm
        · rw [if_neg hdots] at hval
          exact absurd (Prod.mk.inj hval).1 (by simp)
      · exact ⟨q, List.mem_of_find?_eq_some hfind, by simpa using List.find?_some hfind⟩
    · rintro ⟨p, hp, hmatch⟩
      rcases hfind : PROTECTED_PATHS.find? (fun q =>
          substr q fp || substr (expanduser home q) (expanduser home fp)) with _ | q
      · rw [List.find?_eq_none] at hfind
        exact absurd hmatch (by simpa using hfind p hp)
      · exact ⟨q, List.mem_of_find?_eq_some hfind,
          by rw [validateFilePathStr, hfind]⟩
  · constructor
    · intro hval
      rcases hfind : PROTECTED_PATHS.find? (fun q =>
          substr q fp || substr (expanduser home q) (expanduser home fp)) with _ | q
      · rw [validateFilePathStr, hfind] at hval
        by_cases hdots : substr ".." fp
        · rw [if_pos hdots] at hval
          exact absurd (Prod.mk.inj hval).1 (by simp)
        · exact ⟨by simpa using List.find?_eq_none.mp hfind, by simpa using hdots⟩
      · rw [validateFilePathStr, hfind] at hval
        exact absurd (Prod.mk.inj hval).1 (by simp)
    · rintro ⟨hnone, hdots⟩
      have hfind : PROTECTED_PATHS.find? (fun q =>
          substr q fp || substr (expanduser home q) (expanduser home fp)) = none :=
        List.find?_eq_none.mpr (by simpa using hnone)
      rw [validateFilePathStr, hfind, if_neg (by simp [hdots])]

/-- On a well-formed Bash request, `main` blocks (exit 2) or allows
(exit 0) according to the first matching denylist entry, logging one
`bash_command` entry either way. -/
lemma main_bash (home ts cmd : String) (kvs ti : List (String × Json))
    (htn : pyGet (.obj kvs) "tool_name" (.str "") = .ok (.str "Bash"))
    (hti : pyGet (.obj kvs) "tool_input" (.obj []) = .ok (.obj ti))
    (hc : pyGet (.obj ti) "command" (.str "") = .ok (.str cmd)) :
    main home ts (.ok (.obj kvs)) =
      match DANGEROUS_COMMANDS.find? (fun d => substr d cmd) with
      | some d => ⟨2, [⟨ts, "bash_command", .str cmd, false, dangerousMsg d⟩],
          ["❌ " ++ dangerousMsg d]⟩
      | none => ⟨0, [⟨ts, "bash_command", .str cmd, true, "OK"⟩], []⟩ := by
  have hj : jsonEqStr (Json.str "Bash") "Bash" = true := rfl
  rcases hfind : DANGEROUS_COMMANDS.find? (fun d => substr d cmd) with _ | d <;>
    simp [main, runRequest, bind, Except.bind, htn, hti, hc, hj,
      validate_command_str, hfind]

/-- On a well-formed Write/Edit/MultiEdit request, `main` blocks or allows
according to the path validator, logging one `file_operation` entry. -/
lemma main_fileop (home ts tn fp : String) (kvs ti : List (String × Json))
    (htn : pyGet (.obj kvs) "tool_name" (.str "") = .ok (.str tn))
    (hti : pyGet (.obj kvs) "tool_input" (.obj []) = .ok (.obj ti))
    (hf : pyGet (.obj ti) "file_path" (.str "") = .ok (.str fp))
    (hw : tn = "Write" ∨ tn = "Edit" ∨ tn = "MultiEdit") :
    main home ts (.ok (.obj kvs)) =
      if (validateFilePathStr home fp).1 then
        ⟨0, [⟨ts, "file_operation", .str fp,
          (validateFilePathStr home fp).1, (validateFilePathStr home fp).2⟩], []⟩
      else
        ⟨2, [⟨ts, "file_operation", .str fp,
          (validateFilePathStr home fp).1, (validateFilePathStr home fp).2⟩],
          ["❌ " ++ (validateFilePathStr home fp).2]⟩ := by
  rcases hres : validateFilePathStr home fp with ⟨v, m⟩
  rcases hw with hw | hw | hw <;> subst hw <;>
    cases v <;>
      simp [main, runRequest, bind, Except.bind, htn, hti, hf, jsonEqStr,
        validate_file_path, hres]

/-- On a well-formed request whose `tool_name` is none of the four
validated kinds, `main` runs no validator, logs nothing and exits 0. -/
lemma main_other (home ts tn : String) (kvs : List (String × Json))
    (htn : pyGet (.obj kvs) "tool_name" (.str "") = .ok (.str tn))
    (h1 : tn ≠ "Bash") (h2 : tn ≠ "Write") (h3 : tn ≠ "Edit")
    (h4 : tn ≠ "MultiEdit") :
    main home ts (.ok (.obj kvs)) = ⟨0, [], []⟩ := by
  have hval : (lookupLast kvs "tool_name").getD (Json.str "") = Json.str tn := by
    simpa [pyGet] using htn
  simp [main, runRequest, bind, Except.bind, pyGet, hval, jsonEqStr,
    h1, h2, h3, h4]

/-- C4 counterexample: the command `"curl x | bash"` contains no entry of
the denylist (the relevant entry is the exact string `"curl | bash"`), so
the validator returns `(true, "OK")` and the process exits 0, not 2. -/
theorem curl_x_bash_not_blocked :
    (∀ d ∈ DANGEROUS_COMMANDS, substr d "curl x | bash" = false)
    ∧ validate_command (.str "curl x | bash") = .ok (true, "OK")
    ∧ (main "/home/u" "2026-10-12T00:00:00" (.ok (.obj
        [("tool_name", .str "Bash"),
         ("tool_input", .obj [("command", .str "curl x | bash")])]))).exitCode = 0 :=
  ⟨by decide, rfl, rfl⟩

/-- C4 amended: the denylist entry is the exact string `"curl | bash"`; a
Bash request with that exact command is blocked with exit status 2, while
the command `"curl x | bash"` contains no denylisted substring and exits
with status 0. -/
theorem curl_pipe_bash_blocked (home ts : String) :
    validate_command (.str "curl | bash") = .ok (false, dangerousMsg "curl | bash")
    ∧ (main home ts (.ok (.obj
        [("tool_name", .str "Bash"),
         ("tool_input", .obj [("command", .str "curl | bash")])]))).exitCode = 2
    ∧ (main home ts (.ok (.obj
        [("tool_name", .str "Bash"),
         ("tool_input", .obj [("command", .str "curl x | bash")])]))).exitCode = 0 :=
  ⟨rfl, rfl, rfl⟩

/-- C5 counterexample: `"../../etc/passwd"` contains `".."`, but the
validator returns the protected-path message for `"/etc/"` (the protected
check runs first), not the traversal message. -/
theorem traversal_message_preempted :
    substr ".." "../../etc/passwd" = true
    ∧ validateFilePathStr "/home/u" "../../etc/passwd" ≠ (false, traversalMsg)
    ∧ validateFilePathStr "/home/u" "../../etc/passwd" = (false, protectedMsg "/etc/") := by
  refine ⟨rfl, ?_, rfl⟩
  have hval : validateFilePathStr "/home/u" "../../etc/passwd"
      = (false, protectedMsg "/etc/") := rfl
  rw [hval]
  intro h
  exact protectedMsg_ne_traversalMsg "/etc/" (Prod.mk.inj h).2

/-- C5 amended: a path containing `".."` is always rejected, and carries
the traversal message exactly when no protected entry matched first. -/
theorem traversal_always_blocks (home fp : String) (h : substr ".." fp = true) :
    (validateFilePathStr home fp).1 = false
    ∧ ((∀ p ∈ PROTECTED_PATHS,
          (substr p fp || substr (expanduser home p) (expanduser home fp)) = false) →
        validateFilePathStr home fp = (false, traversalMsg)) := by
  rcases hfind : PROTECTED_PATHS.find? (fun q =>
      substr q fp || substr (expanduser home q) (expanduser home fp)) with _ | q
  · exact ⟨by simp [validateFilePathStr, hfind, h],
      fun _ => by simp [validateFilePathStr, hfind, h]⟩
  · refine ⟨by simp [validateFilePathStr, hfind], fun hnone => ?_⟩
    have : PROTECTED_PATHS.find? (fun q =>
        substr q fp || substr (expanduser home q) (expanduser home fp)) = none :=
      List.find?_eq_none.mpr (by simpa using hnone)
    rw [hfind] at this
    cases this

/-- C5 witness: a traversal path matching no protected entry is rejected
with the traversal message. -/
theorem traversal_always_blocks_witness :
    substr ".." "../secret.txt" = true
    ∧ validateFilePathStr "/home/u" "../secret.txt" = (false, traversalMsg) :=
  ⟨rfl, (traversal_always_blocks "/home/u" "../secret.txt" rfl).2 (by decide)⟩

/-- C6 counterexample: the path validator reads the home-directory
environment variable through `os.path.expanduser`: on the path
`/home/alice/.ssh/config` the decision flips between home `/home/alice`
(blocked via the expanded `~/.ssh/` entry, exit 2) and home `/home/bob`
(allowed, exit 0). -/
theorem home_env_changes_decision :
    validateFilePathStr "/home/alice" "/home/alice/.ssh/config"
      ≠ validateFilePathStr "/home/bob" "/home/alice/.ssh/config"
    ∧ (main "/home/alice" "t" (.ok (.obj
        [("tool_name", .str "Write"),
         ("tool_input", .obj [("file_path", .str "/home/alice/.ssh/config")])]))).exitCode = 2
    ∧ (main "/home/bob" "t" (.ok (.obj
        [("tool_name", .str "Write"),
         ("tool_input", .obj [("file_path", .str "/home/alice/.ssh/config")])]))).exitCode = 0 := by
  refine ⟨?_, rfl, rfl⟩
  have ha : validateFilePathStr "/home/alice" "/home/alice/.ssh/config"
      = (false, protectedMsg "~/.ssh/") := rfl
  have hb : validateFilePathStr "/home/bob" "/home/alice/.ssh/config"
      = (true, "OK") := rfl
  rw [ha, hb]
  intro h
  exact absurd (Prod.mk.inj h).1 (by simp)

/-- C6 amended: the path validator's decision depends on the environment
only through home expansion: two runs with different home values agree
whenever the expanded-entry-in-expanded-path containment test of every
protected entry agrees between the two values. -/
theorem path_validator_home_dependence (h1 h2 fp : String)
    (hent : ∀ p ∈ PROTECTED_PATHS,
        substr (expanduser h1 p) (expanduser h1 fp) =
        substr (expanduser h2 p) (expanduser h2 fp)) :
    validateFilePathStr h1 fp = validateFilePathStr h2 fp := by
  have hfind : PROTECTED_PATHS.find? (fun q =>
        substr q fp || substr (expanduser h1 q) (expanduser h1 fp))
      = PROTECTED_PATHS.find? (fun q =>
        substr q fp || substr (expanduser h2 q) (expanduser h2 fp)) :=
    find?_congr_on _ _ _ (fun p hp => by rw [hent p hp])
  simp only [validateFilePathStr]
  rw [hfind]

/-- C6 witness: on a plain relative path the decision is the same under
two different home directories. -/
theorem path_validator_home_dependence_witness :
    validateFilePathStr "/a" "x.txt" = validateFilePathStr "/b" "x.txt" :=
  path_validator_home_dependence "/a" "/b" "x.txt" (by decide)

/-- C3: on a well-formed request the process exits 2 exactly when the
dispatched validator returns not-ok, exits 0 when it returns ok, and for
every other `tool_name` no validator runs and it exits 0 without logging. -/
theorem dispatcher_exit_status (home ts tn cmd fp : String)
    (kvs ti : List (String × Json))
    (htn : pyGet (.obj kvs) "tool_name" (.str "") = .ok (.str tn))
    (hti : pyGet (.obj kvs) "tool_input" (.obj []) = .ok (.obj ti))
    (hc : pyGet (.obj ti) "command" (.str "") = .ok (.str cmd))
    (hf : pyGet (.obj ti) "file_path" (.str "") = .ok (.str fp)) :
    (tn = "Bash" →
      ∃ v m, validate_command (.str cmd) = .ok (v, m) ∧
        ((main home ts (.ok (.obj kvs))).exitCode = 2 ↔ v = false) ∧
        ((main home ts (.ok (.obj kvs))).exitCode = 0 ↔ v = true))
    ∧ ((tn = "Write" ∨ tn = "Edit" ∨ tn = "MultiEdit") →
        (((main home ts (.ok (.obj kvs))).exitCode = 2 ↔
            (validateFilePathStr home fp).1 = false) ∧
          ((main home ts (.ok (.obj kvs))).exitCode = 0 ↔
            (validateFilePathStr home fp).1 = true)))
    ∧ ((tn ≠ "Bash" ∧ tn ≠ "Write" ∧ tn ≠ "Edit" ∧ tn ≠ "MultiEdit") →
        main home ts (.ok (.obj kvs)) = ⟨0, [], []⟩) := by
  refine ⟨?_, ?_, ?_⟩
  · intro hb; subst hb
    have hm := main_bash home ts cmd kvs ti htn hti hc
    rcases hfind : DANGEROUS_COMMANDS.find? (fun d => substr d cmd) with _ | d <;>
      rw [hfind] at hm
    · exact ⟨true, "OK", by rw [validate_command_str, hfind],
        by simp [hm], by simp [hm]⟩
    · exact ⟨false, dangerousMsg d, by rw [validate_command_str, hfind],
        by simp [hm], by simp [hm]⟩
  · intro hw
    have hm := main_fileop home ts tn fp kvs ti htn hti hf hw
    rcases hres : validateFilePathStr home fp with ⟨v, m⟩
    rw [hres] at hm
    cases v <;> simp [hm, hres]
  · rintro ⟨h1, h2, h3, h4⟩
    exact main_other home ts tn kvs htn h1 h2 h3 h4

/-- C3 witness: a harmless `ls -la` Bash request exits 0. -/
theorem dispatcher_exit_status_witness :
    (main "/h" "t" (.ok (.obj [("tool_name", Json.str "Bash"),
        ("tool_input", Json.obj [("command", Json.str "ls -la")])]))).exitCode = 0 := by
  have h := dispatcher_exit_status "/h" "t" "Bash" "ls -la" ""
      [("tool_name", Json.str "Bash"),
       ("tool_input", Json.obj [("command", Json.str "ls -la")])]
      [("command", Json.str "ls -la")] rfl rfl rfl rfl
  obtain ⟨v, m, hv, _, h3⟩ := h.1 rfl
  have hok : validate_command (Json.str "ls -la") = .ok (true, "OK") := rfl
  rw [hv] at hok
  exact h3.mpr (congrArg Prod.fst (Except.ok.inj hok))

/-- Appending a run's log lines leaves all pre-existing lines unchanged. -/
lemma appendLog_spec (old : List LogEntry) (r : MainResult) :
    appendLog old r = old ++ r.log
    ∧ (appendLog old r).take old.length = old
    ∧ (appendLog old r).drop old.length = r.log := by
  refine ⟨rfl, ?_, ?_⟩ <;> simp [appendLog]

/-- C7: every invocation in which a validator runs appends exactly one log
entry whose `result` is the validator's boolean outcome and whose
`event_type` is `bash_command` or `file_operation` accordingly, and all
previously existing log content is preserved. -/
theorem validated_request_logs_once (home ts tn cmd fp : String)
    (kvs ti : List (String × Json)) (oldLog : List LogEntry)
    (htn : pyGet (.obj kvs) "tool_name" (.str "") = .ok (.str tn))
    (hti : pyGet (.obj kvs) "tool_input" (.obj []) = .ok (.obj ti))
    (hc : pyGet (.obj ti) "command" (.str "") = .ok (.str cmd))
    (hf : pyGet (.obj ti) "file_path" (.str "") = .ok (.str fp)) :
    (tn = "Bash" →
      ∃ v m, validate_command (.str cmd) = .ok (v, m) ∧
        (main home ts (.ok (.obj kvs))).log = [⟨ts, "bash_command", .str cmd, v, m⟩] ∧
        (appendLog oldLog (main home ts (.ok (.obj kvs)))).take oldLog.length = oldLog ∧
        (appendLog oldLog (main home ts (.ok (.obj kvs)))).drop oldLog.length
          = [⟨ts, "bash_command", .str cmd, v, m⟩])
    ∧ ((tn = "Write" ∨ tn = "Edit" ∨ tn = "MultiEdit") →
        (main home ts (.ok (.obj kvs))).log
          = [⟨ts, "file_operation", .str fp,
              (validateFilePathStr home fp).1, (validateFilePathStr home fp).2⟩] ∧
        (appendLog oldLog (main home ts (.ok (.obj kvs)))).take oldLog.length = oldLog ∧
        (appendLog oldLog (main home ts (.ok (.obj kvs)))).drop oldLog.length
          = (main home ts (.ok (.obj kvs))).log) := by
  constructor
  · intro hb; subst hb
    have hm := main_bash home ts cmd kvs ti htn hti hc
    rcases hfind : DANGEROUS_COMMANDS.find? (fun d => substr d cmd) with _ | d <;>
      rw [hfind] at hm
    · exact ⟨true, "OK", by rw [validate_command_str, hfind],
        by simp [hm], by simpa [hm] using (appendLog_spec oldLog _).2.1,
        by simpa [hm] using (appendLog_spec oldLog _).2.2⟩
    · exact ⟨false, dangerousMsg d, by rw [validate_command_str, hfind],
        by simp [hm], by simpa [hm] using (appendLog_spec oldLog _).2.1,
        by simpa [hm] using (appendLog_spec oldLog _).2.2⟩
  · intro hw
    have hm := main_fileop home ts tn fp kvs ti htn hti hf hw
    rcases hres : validateFilePathStr home fp with ⟨v, m⟩
    rw [hres] at hm
    refine ⟨?_, (appendLog_spec oldLog _).2.1, (appendLog_spec oldLog _).2.2⟩
    cases v <;> simp [hm, hres]

/-- C7 witness: an allowed Write request logs exactly one
`file_operation` entry with result `true`. -/
theorem validated_request_logs_once_witness :
    (main "/h" "t" (.ok (.obj [("tool_name", Json.str "Write"),
        ("tool_input", Json.obj [("file_path", Json.str "src/main.go")])]))).log
      = [⟨"t", "file_operation", Json.str "src/main.go", true, "OK"⟩] := by
  have h := validated_request_logs_once "/h" "t" "Write" "" "src/main.go"
      [("tool_name", Json.str "Write"),
       ("tool_input", Json.obj [("file_path", Json.str "src/main.go")])]
      [("file_path", Json.str "src/main.go")] [] rfl rfl rfl rfl
  rw [(h.2 (Or.inl rfl)).1]
  rfl

/-- C8: malformed standard input exits with status 1, reports to stderr,
and appends nothing to the log. -/
theorem malformed_stdin_exits_1 (home ts e : String) :
    main home ts (.error e) = ⟨1, [], ["❌ 検証エラー: " ++ e]⟩
    ∧ ∀ old : List LogEntry, appendLog old (main home ts (.error e)) = old := by
  refine ⟨rfl, fun old => ?_⟩
  have hlog : (main home ts (Except.error e)).log = [] := rfl
  simp [appendLog, hlog]

/-- `(String.mk l).toList` is `l`. -/
lemma toList_mk (l : List Char) : (String.mk l).toList = l := rfl

/-- A list ending in a cons is nonempty. -/
lemma isEmpty_append_cons (a : List Char) (c : Char) (l : List Char) :
    (a ++ c :: l).isEmpty = false := by
  cases a <;> rfl

/-- A path not starting with `~` is left unchanged by expansion. -/
lemma expanduser_no_tilde (home p : String) (h : p.toList.head? ≠ some '~') :
    expanduser home p = p := by
  unfold expanduser
  split
  · next rest heq =>
      rw [show p.toList = '~' :: rest from heq] at h
      exact absurd rfl h
  · rfl

/-- A needle occurs in the empty string only if it is itself empty. -/
lemma substr_empty (n : String) : substr n "" = n.toList.isEmpty := rfl

/-- Expansion of the protected entry `~/.ssh/` under any home. -/
lemma expanduser_ssh (home : String) :
    expanduser home "~/.ssh/" =
      String.mk ((rstripSlash home).toList ++
        ('/' :: '.' :: 's' :: 's' :: 'h' :: '/' :: [])) := by
  simp [expanduser]

/-- Expansion of the protected entry `~/.aws/` under any home. -/
lemma expanduser_aws (home : String) :
    expanduser home "~/.aws/" =
      String.mk ((rstripSlash home).toList ++
        ('/' :: '.' :: 'a' :: 'w' :: 's' :: '/' :: [])) := by
  simp [expanduser]

/-- The empty path passes the path validator under any home directory. -/
lemma validateFilePathStr_empty (home : String) :
    validateFilePathStr home "" = (true, "OK") := by
  have hfind : PROTECTED_PATHS.find? (fun q =>
      substr q "" || substr (expanduser home q) (expanduser home "")) = none := by
    rw [List.find?_eq_none]
    intro p hp
    have hexp : expanduser home "" = "" := rfl
    fin_cases hp <;>
      simp only [hexp] <;>
        first
          | (rw [expanduser_no_tilde home _ (by decide)]; decide)
          | (rw [expanduser_ssh home];
              simp [substr_empty, toList_mk, isEmpty_append_cons])
          | (rw [expanduser_aws home];
              simp [substr_empty, toList_mk, isEmpty_append_cons])
  simp only [validateFilePathStr, hfind]
  rfl

/-- C9: a Bash request with a missing or empty command, and a
Write/Edit/MultiEdit request with a missing or empty file path, pass the
dispatched validator with `(true, "OK")` and exit 0. -/
theorem empty_input_allowed (home ts tn : String)
    (kvs ti : List (String × Json))
    (htn : pyGet (.obj kvs) "tool_name" (.str "") = .ok (.str tn))
    (hti : pyGet (.obj kvs) "tool_input" (.obj []) = .ok (.obj ti))
    (hc : pyGet (.obj ti) "command" (.str "") = .ok (.str ""))
    (hf : pyGet (.obj ti) "file_path" (.str "") = .ok (.str "")) :
    (tn = "Bash" →
      validate_command (.str "") = .ok (true, "OK") ∧
      main home ts (.ok (.obj kvs))
        = ⟨0, [⟨ts, "bash_command", .str "", true, "OK"⟩], []⟩)
    ∧ ((tn = "Write" ∨ tn = "Edit" ∨ tn = "MultiEdit") →
      validateFilePathStr home "" = (true, "OK") ∧
      main home ts (.ok (.obj kvs))
        = ⟨0, [⟨ts, "file_operation", .str "", true, "OK"⟩], []⟩) := by
  constructor
  · intro hb; subst hb
    refine ⟨rfl, ?_⟩
    have hm := main_bash home ts "" kvs ti htn hti hc
    have hfind : DANGEROUS_COMMANDS.find? (fun d => substr d "") = none := by decide
    rw [hfind] at hm
    exact hm
  · intro hw
    refine ⟨validateFilePathStr_empty home, ?_⟩
    have hm := main_fileop home ts tn "" kvs ti htn hti hf hw
    rw [validateFilePathStr_empty home] at hm
    simpa using hm

/-- C9 witness: a Write request with no `file_path` key exits 0. -/
theorem empty_input_allowed_witness :
    (main "/h" "t" (.ok (.obj [("tool_name", Json.str "Write"),
        ("tool_input", Json.obj [])]))).exitCode = 0 := by
  have h := empty_input_allowed "/h" "t" "Write"
      [("tool_name", Json.str "Write"), ("tool_input", Json.obj [])] []
      rfl rfl rfl rfl
  rw [(h.2 (Or.inl rfl)).2]

/-- C10: well-formed JSON that is not an object exits 1 without logging,
and so does an object whose `tool_input` is not a mapping while
`tool_name` selects a validator. -/
theorem nonobject_input_exits_1 (home ts : String) (j : Json) :
    ((∀ kvs, j ≠ .obj kvs) →
      (main home ts (.ok j)).exitCode = 1 ∧ (main home ts (.ok j)).log = [])
    ∧ (∀ kvs tnv tiv, j = .obj kvs →
        pyGet (.obj kvs) "tool_name" (.str "") = .ok tnv →
        (tnv = .str "Bash" ∨ tnv = .str "Write" ∨ tnv = .str "Edit" ∨
          tnv = .str "MultiEdit") →
        pyGet (.obj kvs) "tool_input" (.obj []) = .ok tiv →
        (∀ fs, tiv ≠ .obj fs) →
        (main home ts (.ok j)).exitCode = 1 ∧ (main home ts (.ok j)).log = []) := by
  constructor
  · intro h
    cases j with
    | obj kvs => exact absurd rfl (h kvs)
    | null => exact ⟨rfl, rfl⟩
    | bool b => exact ⟨rfl, rfl⟩
    | num n => exact ⟨rfl, rfl⟩
    | str s => exact ⟨rfl, rfl⟩
    | arr es => exact ⟨rfl, rfl⟩
  · rintro kvs tnv tiv rfl htn hsel hti hno
    have htn2 : (lookupLast kvs "tool_name").getD (Json.str "") = tnv := by
      simpa [pyGet] using htn
    have hti2 : (lookupLast kvs "tool_input").getD (Json.obj []) = tiv := by
      simpa [pyGet] using hti
    rcases hsel with h | h | h | h <;> subst h <;>
      cases tiv <;>
        first
          | exact absurd rfl (hno _)
          | exact ⟨by simp [main, runRequest, bind, Except.bind, htn2, hti2,
                jsonEqStr, pyGet, validate_command, validate_file_path],
              by simp [main, runRequest, bind, Except.bind, htn2, hti2,
                jsonEqStr, pyGet, validate_command, validate_file_path]⟩

/-- C10 witness: a JSON list exits 1, and a Bash request whose
`tool_input` is a string exits 1. -/
theorem nonobject_input_exits_1_witness :
    (main "/h" "t" (.ok (.arr []))).exitCode = 1
    ∧ (main "/h" "t" (.ok (.obj [("tool_name", Json.str "Bash"),
        ("tool_input", Json.str "x")]))).exitCode = 1 :=
  ⟨((nonobject_input_exits_1 "/h" "t" (.arr [])).1
      (fun kvs h => by cases h)).1,
    ((nonobject_input_exits_1 "/h" "t"
        (.obj [("tool_name", Json.str "Bash"), ("tool_input", Json.str "x")])).2
      [("tool_name", Json.str "Bash"), ("tool_input", Json.str "x")]
      (Json.str "Bash") (Json.str "x")
      rfl rfl (Or.inl rfl) rfl (fun fs h => by cases h)).1⟩

end ValidateHooks
